import Mathlib

/-!
# A shallow embedding of the Sudoku solving engine (`src/Sudoku.py`)

The source program fixes the block size `n = 3`, hence a 9 × 9 grid whose
entries lie in `[0, 9]` with `0` meaning "blank".  A grid is embedded as a
function `Fin 9 → Fin 9 → Nat`; the numpy array's first index is the row,
as in the source.

Rendering (`render`, `draw_digit`, `draw_nums`, `clear` acting on turtles)
is side-effect-only notification and is dropped, as the specification's §6
requires the core to behave identically when those hooks are no-ops.

Exceptions (the `IndexError` that `np.where(board == 0)[0][0]` raises on a
grid without zeros) and the unbounded recursion of `solve`/`solve2` are
modelled with a result type `Res` carrying a raised-exception constructor
and an out-of-fuel constructor, so a crash is distinguished from fuel
exhaustion.
-/

namespace Sudoku

/-- The grid: a 9 × 9 matrix of naturals, first index the row (`board[y,x]`
in the source's convention). -/
abbrev Board := Fin 9 → Fin 9 → Nat

/-- The row/column/value index range `range(n2)` of the source with `n2 = 9`. -/
def idx9 : List (Fin 9) := List.finRange 9

/-- `range(n)` with `n = 3`, used by `check_quads`. -/
def idx3 : List (Fin 3) := List.finRange 3

/-- A single in-place assignment `board[x, y] = v` of the source, as a pure
functional update. -/
def update3 (b : Board) (x y : Fin 9) (v : Nat) : Board :=
  fun i j => if i = x ∧ j = y then v else b i j

/-- The loop body of `check`: the accumulator `checked` holds every element
already scanned; a non-zero element already present means failure. -/
def checkGo : List Nat → List Nat → Bool
  | _, [] => true
  | acc, x :: xs => if x != 0 && acc.contains x then false else checkGo (acc ++ [x]) xs

/-- `check(line)` of the source: digits other than 0 occur at most once. -/
def check (l : List Nat) : Bool := checkGo [] l

/-- Row `r` of the board as a list, `board[line_num, :]`. -/
def rowList (g : Board) (r : Fin 9) : List Nat := idx9.map (fun c => g r c)

/-- Column `c` of the board as a list, `board[:, col_num]` reshaped. -/
def colList (g : Board) (c : Fin 9) : List Nat := idx9.map (fun r => g r c)

/-- `3 * q + a` as an index into `Fin 9`, the cell coordinates of quadrant
`q` (via `get_quad`'s slice `board[n*y : n*y+n, n*x : n*x+n]`). -/
def qIdx (q a : Fin 3) : Fin 9 :=
  ⟨3 * q.val + a.val, by have := q.isLt; have := a.isLt; omega⟩

/-- `get_quad(board, qx, qy).reshape(n2)`: the quadrant at block column `qx`
and block row `qy`, flattened row-major. -/
def quadList (g : Board) (qx qy : Fin 3) : List Nat :=
  idx3.flatMap (fun a => idx3.map (fun b => g (qIdx qy a) (qIdx qx b)))

/-- `check_rows(board)`: every row passes `check`. -/
def check_rows (g : Board) : Bool := (idx9.map (fun r => rowList g r)).all check

/-- `check_cols(board)`: every column passes `check`. -/
def check_cols (g : Board) : Bool := (idx9.map (fun c => colList g c)).all check

/-- `check_quads(board)`: every quadrant passes `check`; the source loops
`for x in range(n): for y in range(n)`. -/
def check_quads (g : Board) : Bool :=
  (idx3.flatMap (fun qx => idx3.map (fun qy => quadList g qx qy))).all check

/-- `check_all(board)`: rows, columns and quadrants all valid. -/
def check_all (g : Board) : Bool := check_rows g && check_cols g && check_quads g

/-- The grid flattened row-major (for the `0 in board` membership test). -/
def gridList (g : Board) : List Nat := idx9.flatMap (fun r => rowList g r)

/-- `solved(board)`: `not 0 in board and check_all(board)`. -/
def solved (g : Board) : Bool := !(gridList g).contains 0 && check_all g

/-- All cells in row-major order, the order in which `np.where(board == 0)`
lists indices. -/
def allCells : List (Fin 9 × Fin 9) :=
  idx9.flatMap (fun i => idx9.map (fun j => (i, j)))

/-- `(np.where(board == 0)[0][0], np.where(board == 0)[1][0])`: the first
blank cell in row-major order; `none` models the `IndexError` raised when
the board has no zero. -/
def firstZero (g : Board) : Option (Fin 9 × Fin 9) :=
  allCells.find? (fun p => g p.1 p.2 == 0)

/-- The number of blank cells of the board. -/
def zeroCount (g : Board) : Nat :=
  (Finset.univ.filter (fun p : Fin 9 × Fin 9 => g p.1 p.2 = 0)).card

/-- Boolean cell-by-cell equality of boards, `np.array_equal`. -/
def boardEqb (a b : Board) : Bool := allCells.all (fun p => a p.1 p.2 == b p.1 p.2)

/-- Board equality decided through `boardEqb`, which the kernel can
evaluate on concrete boards. -/
instance (priority := 2000) boardDecEq : DecidableEq Board := fun a b =>
  decidable_of_iff (boardEqb a b = true) (by
    constructor
    · intro h
      funext i j
      have hm : (i, j) ∈ allCells := by
        simp [allCells, idx9, List.mem_flatMap]
      have := List.all_eq_true.mp h (i, j) hm
      simpa using this
    · intro h
      subst h
      simp [boardEqb, List.all_eq_true])

/-- `range(1, n2 + 1)`: the candidate values `1..9`. -/
def vals : List Nat := (List.range 9).map (fun k => k + 1)

/-- The result of running a fragment of the script: a normal value, a raised
exception (`IndexError`), or recursion fuel running out (so a crash is
never mistaken for missing fuel). -/
inductive Res (α : Type) where
  | exn (msg : String)
  | out
  | ok (a : α)
deriving DecidableEq

/-- `r` is a normal result whose board agrees cell-for-cell with `b`
(kernel-evaluable, unlike propositional equality on functions). -/
def resOkb (r : Res Board) (b : Board) : Bool :=
  match r with
  | .ok a => boardEqb a b
  | _ => false

/-- `stuck(board)`: the first blank cell admits no value of `1..9` — each
value is written into the (caller-copied) board in turn and `check_all`
tested, returning `False` at the first success.  `np.where` on a zero-free
board raises `IndexError`. -/
def stuck (g : Board) : Res Bool :=
  match firstZero g with
  | none => .exn "IndexError"
  | some fz => .ok (!vals.any (fun i => check_all (update3 g fz.1 fz.2 i)))

/-- `can_go(num, x, y, board)`: `False` on a filled cell, otherwise write
`num` into the cell (of the throwaway copy the callers pass) and test
`check_all`. -/
def can_go (num : Nat) (x y : Fin 9) (b : Board) : Bool :=
  if b x y ≠ 0 then false else check_all (update3 b x y num)

/-- `can_go_tensor(board)[x, y, k]`: whether value `k + 1` can go at
`(x, y)`; the source materialises the tensor from one `can_go` per entry
(each on a fresh copy), which the pure `can_go` reproduces pointwise. -/
def can_go_tensor (b : Board) (x y k : Fin 9) : Bool := can_go (k.val + 1) x y b

/-- The shared write pattern of the three `fill_once` rules: if the filter
over the nine possibilities `t` keeps exactly one (`np.sum(...) == 1`),
write value `V t` at cell `(X t, Y t)` (the coordinates `np.where` picks),
otherwise leave the board alone. -/
def fillStep (b : Board) (q : Fin 9 → Bool) (X Y : Fin 9 → Fin 9) (V : Fin 9 → Nat) :
    Board :=
  match idx9.filter q with
  | [t] => update3 b (X t) (Y t) (V t)
  | _ => b

/-- First rule of `fill_once`: for each cell (x outer, y inner), if exactly
one value can go there (`np.sum(cgt[x,y,:]) == 1`), write that value
(`np.where(cgt[x,y,:])[0][0] + 1`).  The tensor `cgt` is the snapshot taken
from `fill_once`'s incoming board `g`; writes accumulate in `b`. -/
def fillRule1 (g : Board) (b : Board) : Board :=
  idx9.foldl (fun b x => idx9.foldl (fun b y =>
    fillStep b (fun k => can_go_tensor g x y k)
      (fun _ => x) (fun _ => y) (fun k => k.val + 1)) b) b

/-- Second rule of `fill_once`: for each column `x` and value index `num`,
if exactly one row of that column admits the value
(`np.sum(cgt[:,x,num]) == 1`), write `num + 1` at that row. -/
def fillRule2 (g : Board) (b : Board) : Board :=
  idx9.foldl (fun b x => idx9.foldl (fun b num =>
    fillStep b (fun r => can_go_tensor g r x num)
      (fun r => r) (fun _ => x) (fun _ => num.val + 1)) b) b

/-- Third rule of `fill_once`: for each row `y` and value index `num`, if
exactly one column of that row admits the value
(`np.sum(cgt[y,:,num]) == 1`), write `num + 1` at that column. -/
def fillRule3 (g : Board) (b : Board) : Board :=
  idx9.foldl (fun b y => idx9.foldl (fun b num =>
    fillStep b (fun c => can_go_tensor g y c num)
      (fun _ => y) (fun c => c) (fun _ => num.val + 1)) b) b

/-- `fill_once(board)`: one propagation pass — the candidate tensor is
computed once from the incoming board and the three rules write into the
same board in source order. -/
def fill_once (g : Board) : Board := fillRule3 g (fillRule2 g (fillRule1 g g))

/-- The `while not np.array_equal(new_board, board)` loop of `fill`,
unrolled with explicit fuel.  Each iteration computes `fill_once` of the
current board and stops at the first pass that changes nothing. -/
def fillFuel : Nat → Board → Board
  | 0, b => b
  | fuel + 1, b =>
    let nb := fill_once b
    if nb = b then b else fillFuel fuel nb

/-- `fill(board)`: iterate `fill_once` to the first fixpoint.  A pass that
changes the board fills at least one blank cell (proved below as
`fill_once_progress`), so `zeroCount g + 1` passes always reach the
fixpoint — with that much fuel this equals the source's unbounded loop. -/
def fill (g : Board) : Board := fillFuel (zeroCount g + 1) g

/-- The `for i in range(1, n2+1)` loop of `solve`: the frame's board is
mutated in place at the first-zero cell `fz` for every tried value, the
recursive call receives a copy, and a recursive result is returned only if
solved; exhausting the loop returns the (mutated) frame board. -/
def solveTry (recur : Board → Res Board) (fz : Fin 9 × Fin 9) :
    Board → List Nat → Res Board
  | b, [] => .ok b
  | b, i :: rest =>
    let b' := update3 b fz.1 fz.2 i
    if check_all b' then
      match recur b' with
      | .exn msg => .exn msg
      | .out => .out
      | .ok nb => if solved nb then .ok nb else solveTry recur fz b' rest
    else solveTry recur fz b' rest

/-- `solve(board)`: plain backtracking.  The source's guard is
`if not solved(board) or stuck(board.copy())`, i.e.
`(not solved(board)) or stuck(...)`: on an unsolved board the disjunction
short-circuits to true without calling `stuck`; on a solved board `stuck`
is evaluated and raises `IndexError` (no zero exists). -/
def solve : Nat → Board → Res Board
  | 0, _ => .out
  | fuel + 1, b =>
    let branch := fun (bb : Board) =>
      match firstZero bb with
      | none => Res.exn "IndexError"
      | some fz => solveTry (solve fuel) fz bb vals
    if solved b then
      match stuck b with
      | .exn msg => .exn msg
      | .out => .out
      | .ok true => branch b
      | .ok false => .ok b
    else branch b

/-- The value loop of `solve2`: as `solveTry`, but the recursive call is
made on `fill` of the copied board. -/
def solve2Try (recur : Board → Res Board) (fz : Fin 9 × Fin 9) :
    Board → List Nat → Res Board
  | b, [] => .ok b
  | b, i :: rest =>
    let b' := update3 b fz.1 fz.2 i
    if check_all b' then
      match recur (fill b') with
      | .exn msg => .exn msg
      | .out => .out
      | .ok nb => if solved nb then .ok nb else solve2Try recur fz b' rest
    else solve2Try recur fz b' rest

/-- `solve2(board)`: hybrid backtracking; the guard is the correctly
parenthesised `if not (solved(board) or stuck(board.copy()))`, so a solved
board is returned unchanged without calling `stuck`, and a stuck board is
returned unchanged. -/
def solve2 : Nat → Board → Res Board
  | 0, _ => .out
  | fuel + 1, b =>
    if solved b then .ok b
    else
      match stuck b with
      | .exn msg => .exn msg
      | .out => .out
      | .ok true => .ok b
      | .ok false =>
        match firstZero b with
        | none => Res.exn "IndexError"
        | some fz => solve2Try (solve2 fuel) fz b vals

/-- A complete, valid grid: cell `(r, c)` holds
`(3 * (r % 3) + r / 3 + c) % 9 + 1` (the shifted-rows Sudoku solution). -/
def fullGrid : Board :=
  fun r c => (3 * (r.val % 3) + r.val / 3 + c.val) % 9 + 1

/-- `fullGrid` with its top-left cell blanked: a well-formed, solvable
puzzle with a single blank. -/
def nearFull : Board := update3 fullGrid 0 0 0

/-- A well-formed grid that is entirely `1`s: filled but invalid. -/
def allOnes : Board := fun _ _ => 1

/-- All `1`s except a blank at `(0, 0)`: a well-formed unsolvable grid whose
first blank admits no value. -/
def oneHole : Board := fun i j => if i = 0 ∧ j = 0 then 0 else 1

/-- The grid a failing `solve` frame on `oneHole` hands back: the blank
overwritten with the last tried value `9`. -/
def oneHole9 : Board := update3 oneHole 0 0 9

/-- `b` extends `g` monotonically: each cell is untouched, or was blank in
`g` and now holds a value of `1..9`. -/
def Pres (g b : Board) : Prop :=
  ∀ i j : Fin 9, b i j = g i j ∨ (g i j = 0 ∧ 1 ≤ b i j ∧ b i j ≤ 9)

/-- `b` agrees with `g` on every cell that is non-zero in `g` (clue cells
are preserved). -/
def NonzeroPres (g b : Board) : Prop :=
  ∀ i j : Fin 9, g i j ≠ 0 → b i j = g i j

/-- `b` agrees with `g` away from the cell `fz` (the loop of a search frame
only ever writes the frame's first-zero cell). -/
def OffOnly (fz : Fin 9 × Fin 9) (g b : Board) : Prop :=
  ∀ i j : Fin 9, ¬(i = fz.1 ∧ j = fz.2) → b i j = g i j

/-! ## Basic lemmas -/

/-- Every cell pair is in the row-major enumeration. -/
theorem mem_allCells (p : Fin 9 × Fin 9) : p ∈ allCells := by
  simp [allCells, idx9, List.mem_flatMap]

/-- Boolean board equality is propositional equality. -/
theorem boardEqb_eq {a b : Board} (h : boardEqb a b = true) : a = b := by
  funext i j
  have := List.all_eq_true.mp h (i, j) (mem_allCells (i, j))
  simpa using this

/-- A result that `resOkb`-matches `b` is `.ok b`. -/
theorem resOkb_eq {r : Res Board} {b : Board} (h : resOkb r b = true) : r = .ok b := by
  cases r with
  | exn msg => simp [resOkb] at h
  | out => simp [resOkb] at h
  | ok a => exact congrArg Res.ok (boardEqb_eq h)

/-- The membership of the candidate-value list `range(1, n2 + 1)`. -/
theorem mem_vals {v : Nat} : v ∈ vals ↔ 1 ≤ v ∧ v ≤ 9 := by
  simp only [vals, List.mem_map, List.mem_range]
  constructor
  · rintro ⟨a, ha, rfl⟩
    omega
  · intro h
    exact ⟨v - 1, by omega, by omega⟩

/-- The invariant of `check`'s loop: with `checked = acc` already scanned,
the loop succeeds iff no non-zero value is seen twice counting both the
accumulator and the rest of the line. -/
theorem checkGo_iff (l : List Nat) : ∀ acc : List Nat,
    (checkGo acc l = true ↔
      ∀ v : Nat, v ≠ 0 → l.count v + (if v ∈ acc then 1 else 0) ≤ 1) := by
  induction l with
  | nil =>
    intro acc
    simp only [checkGo, List.count_nil, true_iff]
    intro v hv
    split <;> omega
  | cons x xs ih =>
    intro acc
    simp only [checkGo]
    by_cases hx : x ≠ 0 ∧ x ∈ acc
    · have hxb : (x != 0 && acc.contains x) = true := by simp [hx.1, hx.2]
      rw [if_pos hxb]
      constructor
      · intro h
        exact absurd h (by simp)
      · intro h
        exfalso
        have hc := h x hx.1
        rw [List.count_cons, if_pos hx.2] at hc
        simp at hc
    · have hxb : ¬((x != 0 && acc.contains x) = true) := by
        intro hb
        exact hx (by simpa using hb)
      rw [if_neg hxb, ih]
      apply forall_congr'
      intro v
      refine imp_congr_right fun hv => ?_
      by_cases hvx : x = v
      · subst hvx
        have hnacc : x ∉ acc := fun hc => hx ⟨hv, hc⟩
        simp [List.count_cons, hnacc]
      · by_cases hva : v ∈ acc
        · simp [List.count_cons, hva, hvx, Ne.symm hvx]
        · simp [List.count_cons, hva, hvx, Ne.symm hvx]

/-- `check(line)` succeeds iff no non-zero value occurs more than once. -/
theorem check_iff (l : List Nat) :
    check l = true ↔ ∀ v : Nat, v ≠ 0 → l.count v ≤ 1 := by
  rw [check, checkGo_iff]
  apply forall_congr'
  intro v
  simp

/-- `check_all` succeeds iff every row, column and quadrant passes `check`. -/
theorem check_all_iff (g : Board) : check_all g = true ↔
    ((∀ r : Fin 9, check (rowList g r) = true) ∧
      (∀ c : Fin 9, check (colList g c) = true) ∧
      (∀ qx qy : Fin 3, check (quadList g qx qy) = true)) := by
  simp only [check_all, check_rows, check_cols, check_quads, Bool.and_eq_true,
    List.all_eq_true, List.mem_map, List.mem_flatMap, List.mem_finRange, idx9, idx3]
  aesop

/-- Every cell's value occurs in the flattened grid. -/
theorem mem_gridList (g : Board) (i j : Fin 9) : g i j ∈ gridList g := by
  simp only [gridList, List.mem_flatMap, rowList, List.mem_map]
  exact ⟨i, by simp [idx9], j, by simp [idx9], rfl⟩

/-- On a solved board no cell is zero. -/
theorem solved_cell_ne_zero {g : Board} (h : solved g = true) (i j : Fin 9) :
    g i j ≠ 0 := by
  rw [solved, Bool.and_eq_true] at h
  intro hz
  have hm : (0 : Nat) ∈ gridList g := hz ▸ mem_gridList g i j
  have h0 := h.1
  simp only [Bool.not_eq_true'] at h0
  have hc : (gridList g).contains 0 = true := by simpa using hm
  rw [h0] at hc
  cases hc

/-- The first-zero cell really is blank. -/
theorem firstZero_some {g : Board} {fz : Fin 9 × Fin 9}
    (h : firstZero g = some fz) : g fz.1 fz.2 = 0 := by
  have := List.find?_some h
  simpa using this

/-- A solved board has no first zero, so `np.where(...)[0][0]` raises. -/
theorem firstZero_none_of_solved {g : Board} (h : solved g = true) :
    firstZero g = none := by
  rw [firstZero, List.find?_eq_none]
  intro p _
  simp only [beq_iff_eq]
  exact fun hc => solved_cell_ne_zero h p.1 p.2 (by simpa using hc)

/-! ## The propagator's invariants -/

/-- A fold whose every step preserves `P` preserves `P`. -/
theorem foldl_inv {α β : Type} (P : β → Prop) (f : β → α → β)
    (hf : ∀ b a, P b → P (f b a)) :
    ∀ (l : List α) (b : β), P b → P (l.foldl f b) := by
  intro l
  induction l with
  | nil => intro b hb; simpa using hb
  | cons x xs ih =>
    intro b hb
    simp only [List.foldl_cons]
    exact ih (f b x) (hf b x hb)

/-- `Pres` is reflexive. -/
theorem Pres_refl (g : Board) : Pres g g := fun _ _ => Or.inl rfl

/-- `Pres` composes. -/
theorem Pres_trans {g b c : Board} (h₁ : Pres g b) (h₂ : Pres b c) : Pres g c := by
  intro i j
  rcases h₂ i j with he | ⟨hz, h1, h9⟩
  · rcases h₁ i j with he' | ⟨hz', h1', h9'⟩
    · exact Or.inl (he.trans he')
    · exact Or.inr ⟨hz', he ▸ h1', he ▸ h9'⟩
  · rcases h₁ i j with he' | ⟨hz', _, _⟩
    · exact Or.inr ⟨he' ▸ hz, h1, h9⟩
    · exact Or.inr ⟨hz', h1, h9⟩

/-- A write into a cell blank in `g`, with a value in `1..9`, keeps `Pres`. -/
theorem Pres_update {g b : Board} {x y : Fin 9} {v : Nat} (hb : Pres g b)
    (hz : g x y = 0) (hv : 1 ≤ v ∧ v ≤ 9) : Pres g (update3 b x y v) := by
  intro i j
  by_cases hij : i = x ∧ j = y
  · obtain ⟨rfl, rfl⟩ := hij
    exact Or.inr ⟨hz, by simpa [update3] using hv⟩
  · rw [update3, if_neg hij]
    exact hb i j

/-- `can_go` succeeds only on a blank cell. -/
theorem can_go_blank {v : Nat} {x y : Fin 9} {b : Board}
    (h : can_go v x y b = true) : b x y = 0 := by
  by_contra hne
  simp [can_go, hne] at h

/-- A `fillStep` whose filter guarantees a blank target cell keeps `Pres`. -/
theorem Pres_fillStep {g b : Board} {q : Fin 9 → Bool} {X Y : Fin 9 → Fin 9}
    {V : Fin 9 → Nat} (hq : ∀ t, q t = true → g (X t) (Y t) = 0)
    (hV : ∀ t, 1 ≤ V t ∧ V t ≤ 9) (hb : Pres g b) :
    Pres g (fillStep b q X Y V) := by
  unfold fillStep
  split
  · next t hm =>
    have hqt : q t = true :=
      (List.mem_filter.mp (by rw [hm]; exact List.mem_singleton_self t)).2
    exact Pres_update hb (hq t hqt) (hV t)
  · exact hb

/-- Rule 1 of the propagation pass keeps `Pres`. -/
theorem Pres_fillRule1 (g b : Board) (hb : Pres g b) : Pres g (fillRule1 g b) := by
  unfold fillRule1
  refine foldl_inv (Pres g) _ (fun b x hbx => ?_) idx9 b hb
  refine foldl_inv (Pres g) _ (fun b y hby => ?_) idx9 b hbx
  refine Pres_fillStep (fun k hk => can_go_blank hk) (fun k => ?_) hby
  have := k.isLt
  omega

/-- Rule 2 of the propagation pass keeps `Pres`. -/
theorem Pres_fillRule2 (g b : Board) (hb : Pres g b) : Pres g (fillRule2 g b) := by
  unfold fillRule2
  refine foldl_inv (Pres g) _ (fun b x hbx => ?_) idx9 b hb
  refine foldl_inv (Pres g) _ (fun b num hbn => ?_) idx9 b hbx
  refine Pres_fillStep (fun r hr => can_go_blank hr) (fun r => ?_) hbn
  have := x.isLt
  omega

/-- Rule 3 of the propagation pass keeps `Pres`. -/
theorem Pres_fillRule3 (g b : Board) (hb : Pres g b) : Pres g (fillRule3 g b) := by
  unfold fillRule3
  refine foldl_inv (Pres g) _ (fun b y hby => ?_) idx9 b hb
  refine foldl_inv (Pres g) _ (fun b num hbn => ?_) idx9 b hby
  refine Pres_fillStep (fun c hc => can_go_blank hc) (fun c => ?_) hbn
  have := y.isLt
  omega

/-- One propagation pass only writes values `1..9` into blank cells. -/
theorem Pres_fill_once (g : Board) : Pres g (fill_once g) :=
  Pres_fillRule3 g _ (Pres_fillRule2 g _ (Pres_fillRule1 g g (Pres_refl g)))

/-- A pass that changes the board strictly decreases the number of blanks. -/
theorem zeroCount_fill_once_lt {g : Board} (h : fill_once g ≠ g) :
    zeroCount (fill_once g) < zeroCount g := by
  have hP := Pres_fill_once g
  have hex : ¬ ∀ p : Fin 9 × Fin 9, fill_once g p.1 p.2 = g p.1 p.2 := by
    intro hall
    exact h (funext fun i => funext fun j => hall (i, j))
  push_neg at hex
  obtain ⟨p, hp⟩ := hex
  apply Finset.card_lt_card
  rw [Finset.ssubset_iff_of_subset]
  · refine ⟨p, ?_, ?_⟩
    · simp only [Finset.mem_filter, Finset.mem_univ, true_and]
      rcases hP p.1 p.2 with he | ⟨hz, _, _⟩
      · exact absurd he hp
      · exact hz
    · simp only [Finset.mem_filter, Finset.mem_univ, true_and]
      rcases hP p.1 p.2 with he | ⟨_, h1, _⟩
      · exact fun _ => hp he
      · omega
  · intro q hq
    simp only [Finset.mem_filter, Finset.mem_univ, true_and] at hq ⊢
    rcases hP q.1 q.2 with he | ⟨_, h1, _⟩
    · exact he ▸ hq
    · omega

/-- With more fuel than blanks, the loop of `fill` reaches a fixpoint. -/
theorem fillFuel_fix : ∀ (fuel : Nat) (b : Board), zeroCount b < fuel →
    fill_once (fillFuel fuel b) = fillFuel fuel b := by
  intro fuel
  induction fuel with
  | zero => intro b hb; omega
  | succ n ih =>
    intro b hb
    by_cases h : fill_once b = b
    · simp [fillFuel, h]
    · have hlt := zeroCount_fill_once_lt h
      simp only [fillFuel, if_neg h]
      exact ih _ (by omega)

/-- The result of `fill` is a fixpoint of `fill_once`. -/
theorem fill_once_fill (g : Board) : fill_once (fill g) = fill g :=
  fillFuel_fix _ _ (Nat.lt_succ_self _)

/-- The fuelled loop keeps `Pres` relative to any starting point. -/
theorem Pres_fillFuel (g : Board) : ∀ (fuel : Nat) (b : Board),
    Pres g b → Pres g (fillFuel fuel b) := by
  intro fuel
  induction fuel with
  | zero => intro b hb; simpa [fillFuel] using hb
  | succ n ih =>
    intro b hb
    by_cases h : fill_once b = b
    · simpa [fillFuel, h] using hb
    · simp only [fillFuel, if_neg h]
      exact ih _ (Pres_trans hb (Pres_fill_once b))

/-- `fill` only writes values `1..9` into blank cells. -/
theorem Pres_fill (g : Board) : Pres g (fill g) :=
  Pres_fillFuel g _ g (Pres_refl g)

/-- `Pres` implies clue preservation. -/
theorem Pres_nonzero {g b : Board} (h : Pres g b) : NonzeroPres g b := by
  intro i j hz
  rcases h i j with he | ⟨hz', _, _⟩
  · exact he
  · exact absurd hz' hz

/-! ## The search engine's invariants -/

/-- `NonzeroPres` composes. -/
theorem NonzeroPres_trans {g b c : Board} (h₁ : NonzeroPres g b)
    (h₂ : NonzeroPres b c) : NonzeroPres g c := by
  intro i j hnz
  have he := h₁ i j hnz
  have hb : b i j ≠ 0 := by rw [he]; exact hnz
  rw [h₂ i j hb, he]

/-- A board touching only the blank cell `fz` preserves the clues of `g`. -/
theorem OffOnly_nz {fz : Fin 9 × Fin 9} {g b : Board} (hfz : g fz.1 fz.2 = 0)
    (h : OffOnly fz g b) : NonzeroPres g b := by
  intro i j hnz
  apply h i j
  rintro ⟨rfl, rfl⟩
  exact hnz hfz

/-- Writing at `fz` keeps the loop boards equal to `g` away from `fz`. -/
theorem OffOnly_update {fz : Fin 9 × Fin 9} {g b : Board} {v : Nat}
    (h : OffOnly fz g b) : OffOnly fz g (update3 b fz.1 fz.2 v) := by
  intro i j hij
  rw [update3, if_neg hij]
  exact h i j hij

/-- The value loop of `solve` preserves clues: each board it threads only
differs from the frame's board at the first-zero cell, and any solved
result of a recursive call preserves clues by induction. -/
theorem solveTry_nz (fuel : Nat)
    (IH : ∀ b b' : Board, solve fuel b = .ok b' → NonzeroPres b b')
    (g : Board) (fz : Fin 9 × Fin 9) (hfz : g fz.1 fz.2 = 0) :
    ∀ (l : List Nat) (b g' : Board), OffOnly fz g b →
      solveTry (solve fuel) fz b l = .ok g' → NonzeroPres g g' := by
  intro l
  induction l with
  | nil =>
    intro b g' hoff h
    simp only [solveTry, Res.ok.injEq] at h
    exact h ▸ OffOnly_nz hfz hoff
  | cons i rest ih =>
    intro b g' hoff h
    simp only [solveTry] at h
    have hoff' : OffOnly fz g (update3 b fz.1 fz.2 i) := OffOnly_update hoff
    by_cases hc : check_all (update3 b fz.1 fz.2 i) = true
    · rw [if_pos hc] at h
      split at h
      next msg hrec => cases h
      next hrec => cases h
      next nb hrec =>
        by_cases hs : solved nb = true
        · rw [if_pos hs] at h
          cases h
          exact NonzeroPres_trans (OffOnly_nz hfz hoff') (IH _ _ hrec)
        · rw [if_neg hs] at h
          exact ih _ _ hoff' h
    · rw [if_neg hc] at h
      exact ih _ _ hoff' h

/-- `solve` preserves clue cells in any normal result. -/
theorem solve_nz : ∀ (fuel : Nat) (g g' : Board),
    solve fuel g = .ok g' → NonzeroPres g g' := by
  intro fuel
  induction fuel with
  | zero => intro g g' h; cases h
  | succ n ih =>
    intro g g' h
    simp only [solve] at h
    by_cases hs : solved g = true
    · rw [if_pos hs, stuck, firstZero_none_of_solved hs] at h
      cases h
    · rw [if_neg hs] at h
      cases hfz : firstZero g with
      | none => rw [hfz] at h; cases h
      | some fz =>
        rw [hfz] at h
        exact solveTry_nz n ih g fz (firstZero_some hfz) vals g g'
          (fun _ _ _ => rfl) h

/-- The value loop of `solve2` preserves clues; the recursive call passes
through `fill`, which also preserves them. -/
theorem solve2Try_nz (fuel : Nat)
    (IH : ∀ b b' : Board, solve2 fuel b = .ok b' → NonzeroPres b b')
    (g : Board) (fz : Fin 9 × Fin 9) (hfz : g fz.1 fz.2 = 0) :
    ∀ (l : List Nat) (b g' : Board), OffOnly fz g b →
      solve2Try (solve2 fuel) fz b l = .ok g' → NonzeroPres g g' := by
  intro l
  induction l with
  | nil =>
    intro b g' hoff h
    simp only [solve2Try, Res.ok.injEq] at h
    exact h ▸ OffOnly_nz hfz hoff
  | cons i rest ih =>
    intro b g' hoff h
    simp only [solve2Try] at h
    have hoff' : OffOnly fz g (update3 b fz.1 fz.2 i) := OffOnly_update hoff
    by_cases hc : check_all (update3 b fz.1 fz.2 i) = true
    · rw [if_pos hc] at h
      split at h
      next msg hrec => cases h
      next hrec => cases h
      next nb hrec =>
        by_cases hs : solved nb = true
        · rw [if_pos hs] at h
          cases h
          refine NonzeroPres_trans (OffOnly_nz hfz hoff') ?_
          exact NonzeroPres_trans (Pres_nonzero (Pres_fill _)) (IH _ _ hrec)
        · rw [if_neg hs] at h
          exact ih _ _ hoff' h
    · rw [if_neg hc] at h
      exact ih _ _ hoff' h

/-- `solve2` preserves clue cells in any normal result. -/
theorem solve2_nz : ∀ (fuel : Nat) (g g' : Board),
    solve2 fuel g = .ok g' → NonzeroPres g g' := by
  intro fuel
  induction fuel with
  | zero => intro g g' h; cases h
  | succ n ih =>
    intro g g' h
    simp only [solve2] at h
    by_cases hs : solved g = true
    · rw [if_pos hs] at h
      cases h
      exact fun _ _ _ => rfl
    · rw [if_neg hs] at h
      split at h
      next msg hstk => cases h
      next hstk => cases h
      next hstk => cases h; exact fun _ _ _ => rfl
      next hstk =>
        split at h
        next hfz => cases h
        next fz hfz =>
          exact solve2Try_nz n ih g fz (firstZero_some hfz) vals g g'
            (fun _ _ _ => rfl) h

/-! ## The shape of a failing frame -/

/-- When the value loop of `solve` exhausts its list without a solved
result, the board it returns is the loop's board after every update
`board[first_zero] = i` in turn. -/
theorem solveTry_fold (r : Board → Res Board) (fz : Fin 9 × Fin 9) :
    ∀ (l : List Nat) (b g' : Board), solveTry r fz b l = .ok g' →
      solved g' = false →
      g' = l.foldl (fun bb i => update3 bb fz.1 fz.2 i) b := by
  intro l
  induction l with
  | nil =>
    intro b g' h hs
    simp only [solveTry, Res.ok.injEq] at h
    simp [h]
  | cons i rest ih =>
    intro b g' h hs
    simp only [solveTry] at h
    rw [List.foldl_cons]
    by_cases hc : check_all (update3 b fz.1 fz.2 i) = true
    · rw [if_pos hc] at h
      split at h
      next msg hrec => cases h
      next hrec => cases h
      next nb hrec =>
        by_cases hsn : solved nb = true
        · rw [if_pos hsn] at h
          cases h
          rw [hsn] at hs
          cases hs
        · rw [if_neg hsn] at h
          exact ih _ _ h hs
    · rw [if_neg hc] at h
      exact ih _ _ h hs

/-- The same loop shape for `solve2`. -/
theorem solve2Try_fold (r : Board → Res Board) (fz : Fin 9 × Fin 9) :
    ∀ (l : List Nat) (b g' : Board), solve2Try r fz b l = .ok g' →
      solved g' = false →
      g' = l.foldl (fun bb i => update3 bb fz.1 fz.2 i) b := by
  intro l
  induction l with
  | nil =>
    intro b g' h hs
    simp only [solve2Try, Res.ok.injEq] at h
    simp [h]
  | cons i rest ih =>
    intro b g' h hs
    simp only [solve2Try] at h
    rw [List.foldl_cons]
    by_cases hc : check_all (update3 b fz.1 fz.2 i) = true
    · rw [if_pos hc] at h
      split at h
      next msg hrec => cases h
      next hrec => cases h
      next nb hrec =>
        by_cases hsn : solved nb = true
        · rw [if_pos hsn] at h
          cases h
          rw [hsn] at hs
          cases hs
        · rw [if_neg hsn] at h
          exact ih _ _ h hs
    · rw [if_neg hc] at h
      exact ih _ _ h hs

/-- Folding the nine same-cell writes `board[fz] = 1, …, 9` leaves the cell
holding `9`. -/
theorem foldl_update_vals (g : Board) (fz : Fin 9 × Fin 9) :
    vals.foldl (fun bb i => update3 bb fz.1 fz.2 i) g = update3 g fz.1 fz.2 9 := by
  have hv : vals = [1, 2, 3, 4, 5, 6, 7, 8, 9] := rfl
  rw [hv]
  simp only [List.foldl_cons, List.foldl_nil]
  funext i j
  by_cases hij : i = fz.1 ∧ j = fz.2 <;> simp [update3, hij]

/-! ## The claims -/

/-- C1: the claim says both `solve` and `solve2` return an already-solved
well-formed grid unchanged.  `solve2` does.  `solve`, because its guard is
`not solved(board) or stuck(board.copy())` instead of
`not (solved(board) or stuck(board.copy()))`, calls `stuck` on the solved
grid, and `stuck`'s `np.where(board == 0)[0][0]` raises `IndexError` on a
zero-free board: `solve` crashes instead of returning the grid, at every
recursion depth. -/
theorem C1_solve_crashes_on_solved :
    solved fullGrid = true ∧
    (gridList fullGrid).all (fun v => decide (v ≤ 9)) = true ∧
    (∀ (g : Board) (fuel : Nat), solved g = true →
      solve (fuel + 1) g = .exn "IndexError") ∧
    (∀ (g : Board) (fuel : Nat), solved g = true → solve2 (fuel + 1) g = .ok g) := by
  refine ⟨by decide, by decide, fun g fuel hsg => ?_, fun g fuel hsg => ?_⟩
  · simp only [solve]
    rw [if_pos hsg, stuck, firstZero_none_of_solved hsg]
  · simp only [solve2]
    rw [if_pos hsg]

/-- C2: the claim says `solve` terminates without raising on every
well-formed grid.  It raises `IndexError` on `nearFull` (a solvable
puzzle: filling its single blank validly makes the recursive call receive
a zero-free board, whose `np.where(board == 0)[0][0]` raises) and on
`allOnes` (a filled, well-formed grid with no blank at all), at every
recursion depth. -/
theorem C2_solve_raises :
    nearFull 0 0 = 0 ∧
    (gridList nearFull).all (fun v => decide (v ≤ 9)) = true ∧
    solve 2 nearFull = .exn "IndexError" ∧
    (gridList allOnes).all (fun v => decide (v ≤ 9)) = true ∧
    (∀ fuel : Nat, solve (fuel + 1) allOnes = .exn "IndexError") := by
  refine ⟨by decide, by decide, by decide, by decide, fun fuel => ?_⟩
  have hs : ¬ solved allOnes = true := by decide
  have hfz : firstZero allOnes = none := by decide
  simp only [solve]
  rw [if_neg hs, hfz]

/-- C3: every cell that is non-zero in the input keeps its value in any
normal result of `solve` and `solve2`, and through every propagation pass
(`fill_once`, and its fixpoint `fill`, only write blank cells). -/
theorem C3_clues_preserved (fuel : Nat) (g g' g2 : Board) (i j : Fin 9)
    (hg : g i j ≠ 0) (h1 : solve fuel g = .ok g') (h2 : solve2 fuel g = .ok g2) :
    g' i j = g i j ∧ g2 i j = g i j ∧ fill g i j = g i j ∧
      fill_once g i j = g i j :=
  ⟨solve_nz fuel g g' h1 i j hg, solve2_nz fuel g g2 h2 i j hg,
    Pres_nonzero (Pres_fill g) i j hg, Pres_nonzero (Pres_fill_once g) i j hg⟩

/-- Witness for C3 at `oneHole` with clue cell `(0, 1)`. -/
theorem C3_witness :
    oneHole 0 1 ≠ 0 ∧
    (oneHole9 0 1 = oneHole 0 1 ∧ oneHole 0 1 = oneHole 0 1 ∧
      fill oneHole 0 1 = oneHole 0 1 ∧ fill_once oneHole 0 1 = oneHole 0 1) :=
  ⟨by decide, C3_clues_preserved 1 oneHole oneHole9 oneHole 0 1 (by decide)
    (resOkb_eq (by decide)) (resOkb_eq (by decide))⟩

/-- C4, counterexample: on `oneHole` every candidate value at the first
blank `(0, 0)` fails `check_all`, yet the frame of `solve` returns the
grid with that cell overwritten by `9`, not the grid it was given. -/
theorem C4_counterexample :
    (vals.all (fun i => !check_all (update3 oneHole 0 0 i))) = true ∧
    firstZero oneHole = some (0, 0) ∧
    solve 1 oneHole ≠ .ok oneHole ∧
    resOkb (solve 1 oneHole) oneHole9 = true ∧
    oneHole 0 0 = 0 ∧ oneHole9 0 0 = 9 :=
  ⟨by decide, by decide, by decide, by decide, by decide, by decide⟩

/-- C4, amended: a frame of `solve` that fails returns its grid with the
first blank cell overwritten by the last tried value `9` and every other
cell unchanged (the in-place writes `board[first_zero] = i` are never
undone); a failing frame of `solve2` returns either its grid unchanged
(the `stuck` early exit) or likewise the grid with the first blank set to
`9`.  Caller grids are unaffected since each recursive call receives a
copy. -/
theorem C4_failed_frame (fuel : Nat) (g g' g2 : Board)
    (h1 : solve (fuel + 1) g = .ok g') (hs1 : solved g' = false)
    (h2 : solve2 (fuel + 1) g = .ok g2) (hs2 : solved g2 = false) :
    (∃ fz, firstZero g = some fz ∧ g' = update3 g fz.1 fz.2 9) ∧
    (g2 = g ∨ ∃ fz, firstZero g = some fz ∧ g2 = update3 g fz.1 fz.2 9) := by
  constructor
  · simp only [solve] at h1
    by_cases hs : solved g = true
    · rw [if_pos hs, stuck, firstZero_none_of_solved hs] at h1
      cases h1
    · rw [if_neg hs] at h1
      split at h1
      next hfz => cases h1
      next fz hfz =>
        refine ⟨fz, hfz, ?_⟩
        rw [solveTry_fold _ _ _ _ _ h1 hs1, foldl_update_vals]
  · simp only [solve2] at h2
    by_cases hs : solved g = true
    · rw [if_pos hs] at h2
      cases h2
      exact Or.inl rfl
    · rw [if_neg hs] at h2
      split at h2
      next msg hstk => cases h2
      next hstk => cases h2
      next hstk => cases h2; exact Or.inl rfl
      next hstk =>
        split at h2
        next hfz => cases h2
        next fz hfz =>
          refine Or.inr ⟨fz, hfz, ?_⟩
          rw [solve2Try_fold _ _ _ _ _ h2 hs2, foldl_update_vals]

/-- Witness for C4's amended statement at `oneHole`. -/
theorem C4_witness :
    (∃ fz, firstZero oneHole = some fz ∧ oneHole9 = update3 oneHole fz.1 fz.2 9) ∧
    (oneHole = oneHole ∨ ∃ fz, firstZero oneHole = some fz ∧
      oneHole = update3 oneHole fz.1 fz.2 9) :=
  C4_failed_frame 0 oneHole oneHole9 oneHole (resOkb_eq (by decide)) (by decide)
    (resOkb_eq (by decide)) (by decide)

/-- C5: `fill` (the propagate-to-fixpoint loop) is idempotent. -/
theorem C5_fill_idempotent (g : Board) : fill (fill g) = fill g := by
  have hfix := fill_once_fill g
  show fillFuel (zeroCount (fill g) + 1) (fill g) = fill g
  simp [fillFuel, hfix]

/-- C6: `fill` terminates — each `fill_once` pass either leaves the grid
unchanged or strictly decreases the (finite) number of blank cells, and
the grid `fill` returns is a fixpoint of `fill_once` (the loop reached an
unchanged pass). -/
theorem C6_fill_terminates (g : Board) :
    (fill_once g = g ∨ zeroCount (fill_once g) < zeroCount g) ∧
    fill_once (fill g) = fill g := by
  constructor
  · by_cases h : fill_once g = g
    · exact Or.inl h
    · exact Or.inr (zeroCount_fill_once_lt h)
  · exact fill_once_fill g

/-- C7: `check` accepts a line iff no non-zero value occurs in it more
than once; `check_all` accepts a grid iff every row, every column and
every block passes `check`; in particular a duplicated non-zero value in
some row, column or block forces `check_all` to `false`. -/
theorem C7_validator_correct :
    (∀ l : List Nat, check l = true ↔ ∀ v : Nat, v ≠ 0 → l.count v ≤ 1) ∧
    (∀ g : Board, check_all g = true ↔
      ((∀ r : Fin 9, check (rowList g r) = true) ∧
        (∀ c : Fin 9, check (colList g c) = true) ∧
        (∀ qx qy : Fin 3, check (quadList g qx qy) = true))) ∧
    (∀ (g : Board) (v : Nat), v ≠ 0 →
      ((∃ r, 2 ≤ (rowList g r).count v) ∨ (∃ c, 2 ≤ (colList g c).count v) ∨
        (∃ qx qy, 2 ≤ (quadList g qx qy).count v)) → check_all g = false) := by
  refine ⟨check_iff, check_all_iff, ?_⟩
  intro g v hv hdup
  cases hca : check_all g with
  | false => rfl
  | true =>
    exfalso
    obtain ⟨hr, hc, hq⟩ := (check_all_iff g).mp hca
    rcases hdup with ⟨r, h2⟩ | ⟨c, h2⟩ | ⟨qx, qy, h2⟩
    · have := (check_iff _).mp (hr r) v hv
      omega
    · have := (check_iff _).mp (hc c) v hv
      omega
    · have := (check_iff _).mp (hq qx qy) v hv
      omega

/-- C8: `can_go` on a blank cell holds iff writing the value and testing
`check_all` on the copy succeeds; on a filled cell `can_go` is `false` for
every value, so the tensor row of a filled cell is all `false`; and
`can_go_tensor` is exactly the cellwise aggregation of `can_go`. -/
theorem C8_candidates_correct (b : Board) (x y : Fin 9) (v : Nat) (k : Fin 9) :
    (b x y = 0 → (can_go v x y b = true ↔ check_all (update3 b x y v) = true)) ∧
    (b x y ≠ 0 → can_go v x y b = false ∧ can_go_tensor b x y k = false) ∧
    can_go_tensor b x y k = can_go (k.val + 1) x y b := by
  refine ⟨fun hz => ?_, fun hnz => ⟨?_, ?_⟩, rfl⟩
  · simp [can_go, hz]
  · simp [can_go, hnz]
  · simp [can_go_tensor, can_go, hnz]

/-- C9: on a grid with a blank, `stuck` returns `true` iff no value `1..9`
placed at the first blank (row-major) passes `check_all`, and `false` iff
some value there passes. -/
theorem C9_stuck_iff (g : Board) (fz : Fin 9 × Fin 9)
    (h : firstZero g = some fz) :
    (stuck g = .ok true ↔
      ∀ v : Nat, 1 ≤ v → v ≤ 9 → check_all (update3 g fz.1 fz.2 v) = false) ∧
    (stuck g = .ok false ↔
      ∃ v : Nat, 1 ≤ v ∧ v ≤ 9 ∧ check_all (update3 g fz.1 fz.2 v) = true) := by
  rw [stuck, h]
  constructor
  · simp only [Res.ok.injEq, Bool.not_eq_true', List.any_eq_false]
    constructor
    · intro hall v h1 h9
      have := hall v (mem_vals.mpr ⟨h1, h9⟩)
      simpa using this
    · intro hall v hv
      obtain ⟨h1, h9⟩ := mem_vals.mp hv
      simpa using hall v h1 h9
  · simp only [Res.ok.injEq, Bool.not_eq_false', List.any_eq_true]
    constructor
    · rintro ⟨v, hv, hc⟩
      obtain ⟨h1, h9⟩ := mem_vals.mp hv
      exact ⟨v, h1, h9, hc⟩
    · rintro ⟨v, h1, h9, hc⟩
      exact ⟨v, mem_vals.mpr ⟨h1, h9⟩, hc⟩

/-- Witness for C9 at `oneHole`, whose first blank is `(0, 0)`. -/
theorem C9_witness :
    firstZero oneHole = some ((0 : Fin 9), (0 : Fin 9)) ∧
    ((stuck oneHole = .ok true ↔
      ∀ v : Nat, 1 ≤ v → v ≤ 9 → check_all (update3 oneHole 0 0 v) = false) ∧
     (stuck oneHole = .ok false ↔
      ∃ v : Nat, 1 ≤ v ∧ v ≤ 9 ∧ check_all (update3 oneHole 0 0 v) = true)) :=
  ⟨by decide, C9_stuck_iff oneHole (0, 0) (by decide)⟩

/-- C10: one propagation pass (and hence its fixpoint `fill`) only writes
values `1..9` into cells that were blank; non-zero cells keep their value
and no cell is reset to zero, so the blank cells of the output are a
subset of the blank cells of the input. -/
theorem C10_fill_monotone (g : Board) (i j : Fin 9) :
    (fill_once g i j = g i j ∨
      (g i j = 0 ∧ 1 ≤ fill_once g i j ∧ fill_once g i j ≤ 9)) ∧
    (fill g i j = g i j ∨ (g i j = 0 ∧ 1 ≤ fill g i j ∧ fill g i j ≤ 9)) :=
  ⟨Pres_fill_once g i j, Pres_fill g i j⟩

end Sudoku
